import Mathlib

/-!
Shallow embedding of the WebRTC signaling server core (src/server.js):
the in-memory Connection Registry (`clients : Map ws -> {id, roomId}`),
the Room Registry (`rooms : Map roomId -> Set ws`), and the message
router (`handleJoin`, `handleSignaling`, `handleLeave`, and the
`wss.on('connection')` message/close dispatch).

Modelling choices:
- A transport connection (`ws`) is an opaque handle, modelled as `Nat`.
- JavaScript string-or-undefined values (message fields such as
  `data.roomId`, which may be absent after `JSON.parse`) are modelled as
  `Option String`; JS `Map` keys and `===` comparisons distinguish
  `undefined` from every string, exactly as `Option.none` does.
- A JS `Set` preserves insertion order and holds no duplicates: room
  member sets are `List Conn` kept duplicate-free (`setAdd` mirrors
  `Set.add`, `List.erase` mirrors `Set.delete`).
- `ws.readyState === 1` is the per-connection `ready` flag in the state;
  the server never mutates it, the transport does (`Ev.disconnect`).
- `clients.get(c).id` in the source throws a TypeError when `c` has no
  registry entry; the enclosing message handler catches it, so the
  handler stops at that point with every mutation made so far kept.
  `jsMapIds` models that lookup-and-map, returning `none` on a throw,
  and each handler returns the partially mutated state in that case.
- The CouchDB persistence sink (`saveRoomToDB`) and logging are pure
  side effects outside the registries and the protocol messages; the
  `participants` computation feeding `saveRoomToDB` in `handleLeave`
  (line 288) can itself throw, which aborts the rest of the handler, so
  it is modelled; in `handleJoin` (line 244) it runs after the
  `existingClients` map already succeeded on the same member set minus
  the just-added, just-bound connection, so it cannot throw there.
-/

/-- A transport-level connection handle (a `ws` object). -/
abbrev Conn := Nat

/-- A JavaScript string-or-undefined value. -/
abbrev JStr := Option String

/-- The Connection Registry record: `clients.set(ws, { id, roomId })`. -/
structure CInfo where
  id : JStr
  roomId : JStr
deriving DecidableEq

/-- A parsed inbound JSON message: the `type` discriminator plus the
fields the router reads (`roomId`, `clientId`, `targetId`); `body`
stands for all remaining fields (offer/answer/candidate payloads),
which the router never inspects and forwards verbatim. -/
structure JsonMsg where
  type : String
  roomId : JStr
  clientId : JStr
  targetId : JStr
  body : String
deriving DecidableEq

/-- A server-to-client message, as built at the `send` call sites. -/
inductive SMsg where
  | existingClients (clients : List JStr)
  | newClient (clientId : JStr)
  | clientLeft (clientId : JStr)
  | fwd (data : JsonMsg) (fromId : JStr)
deriving DecidableEq

/-- One transport write: target connection and the message written. -/
abbrev Send := Conn × SMsg

/-- The server's in-memory state: the Room Registry `rooms`, the
Connection Registry `clients`, and each connection's transport
liveness (`readyState === 1`). -/
structure SState where
  rooms : JStr → Option (List Conn)
  clients : Conn → Option CInfo
  ready : Conn → Bool

/-- JS `Map.set` / `Map.delete` on an optional-valued map. -/
def mapSet {α β : Type} [DecidableEq α] (f : α → Option β) (k : α) (v : Option β) :
    α → Option β :=
  fun x => if x = k then v else f x

/-- Pointwise update of the liveness flag (the transport closing). -/
def bSet (f : Conn → Bool) (k : Conn) (v : Bool) : Conn → Bool :=
  fun x => if x = k then v else f x

/-- JS `Set.add`: appends unless already present. -/
def setAdd (l : List Conn) (c : Conn) : List Conn :=
  if c ∈ l then l else l ++ [c]

/-- The member list of a room (empty when the room is absent). -/
def members (s : SState) (R : JStr) : List Conn :=
  (s.rooms R).getD []

/-- `Array.from(room).map(c => clients.get(c).id)`: `none` models the
TypeError thrown when some member has no Connection Registry entry. -/
def jsMapIds (cl : Conn → Option CInfo) : List Conn → Option (List JStr)
  | [] => some []
  | c :: rest =>
    match cl c with
    | none => none
    | some i => (jsMapIds cl rest).map (fun l => i.id :: l)

/-- `clients.set(ws, { id: clientId, roomId })` (server.js line 215). -/
def bindClient (s : SState) (w : Conn) (i : CInfo) : SState :=
  { s with clients := mapSet s.clients w (some i) }

/-- `if (!rooms.has(roomId)) rooms.set(roomId, new Set())` (lines 218-220). -/
def ensureRoom (s : SState) (R : JStr) : SState :=
  match s.rooms R with
  | none => { s with rooms := mapSet s.rooms R (some []) }
  | some _ => s

/-- `handleJoin` (server.js lines 211-248): bind identity, create the
room if absent, snapshot the prior members' ids (which can throw),
add the joiner, reply `existing-clients`, broadcast `new-client` to the
other members whose transport is open. -/
def handleJoin (s : SState) (w : Conn) (d : JsonMsg) : SState × List Send :=
  let s1 := bindClient s w ⟨d.clientId, d.roomId⟩
  let s2 := ensureRoom s1 d.roomId
  let room := members s2 d.roomId
  match jsMapIds s2.clients room with
  | none => (s2, [])
  | some existing =>
    let room2 := setAdd room w
    let s3 := { s2 with rooms := mapSet s2.rooms d.roomId (some room2) }
    (s3, (w, SMsg.existingClients existing) ::
      (room2.filter (fun c => !(c == w) && s.ready c)).map
        (fun c => (c, SMsg.newClient d.clientId)))

/-- `handleSignaling` (server.js lines 250-267): drop if the sender is
unbound or its room is absent; otherwise forward `{...data, fromId}` to
every room member whose registered `id` equals `data.targetId` and
whose transport is open. The registries are never modified. -/
def handleSignaling (s : SState) (w : Conn) (d : JsonMsg) : SState × List Send :=
  match s.clients w with
  | none => (s, [])
  | some client =>
    match s.rooms client.roomId with
    | none => (s, [])
    | some room =>
      (s, room.filterMap (fun t =>
        match s.clients t with
        | none => none
        | some tc =>
          if tc.id = d.targetId ∧ s.ready t = true then
            some (t, SMsg.fwd d client.id)
          else none))

/-- `handleLeave` (server.js lines 269-300): drop if unbound; otherwise
remove the leaver from its recorded room, broadcast `client-left` to
the remaining members with an open transport, then (line 288) map the
remaining members' ids — which can throw, skipping both the empty-room
cleanup and the `clients.delete` — else delete the room when empty and
unbind the leaver. -/
def handleLeave (s : SState) (w : Conn) : SState × List Send :=
  match s.clients w with
  | none => (s, [])
  | some client =>
    match s.rooms client.roomId with
    | none => ({ s with clients := mapSet s.clients w none }, [])
    | some room =>
      let room2 := room.erase w
      let rm1 := mapSet s.rooms client.roomId (some room2)
      let sends := (room2.filter (fun c => s.ready c)).map
        (fun c => (c, SMsg.clientLeft client.id))
      match jsMapIds s.clients room2 with
      | none => ({ s with rooms := rm1 }, sends)
      | some _ =>
        let rm2 := if room2 = [] then mapSet rm1 client.roomId none else rm1
        ({ rooms := rm2, clients := mapSet s.clients w none, ready := s.ready }, sends)

/-- An external event: a raw inbound frame on a connection (`none` when
`JSON.parse` throws) or the transport closing. -/
inductive Ev where
  | recv (c : Conn) (msg : Option JsonMsg)
  | disconnect (c : Conn)

/-- The `ws.on('message')` dispatch (lines 180-200) plus the
`ws.on('close')` handler (lines 202-204): the switch on `data.type`
with no default branch, an unparseable frame caught and dropped, and a
close treated as `handleLeave` after the transport goes non-open. -/
def step (s : SState) (e : Ev) : SState × List Send :=
  match e with
  | .recv _ none => (s, [])
  | .recv c (some d) =>
    if d.type = "join" then handleJoin s c d
    else if d.type = "offer" ∨ d.type = "answer" ∨ d.type = "ice-candidate" then
      handleSignaling s c d
    else if d.type = "leave" then handleLeave s c
    else (s, [])
  | .disconnect c =>
    handleLeave { rooms := s.rooms, clients := s.clients, ready := bSet s.ready c false } c

/-- The state at server start: both registries empty (lines 23-24);
connections not yet closed are open. -/
def initState : SState :=
  { rooms := fun _ => none, clients := fun _ => none, ready := fun _ => true }

/-- States reachable by any sequence of events at quiescent points
(between complete handler runs). -/
inductive Reach : SState → Prop where
  | init : Reach initState
  | next (s : SState) (e : Ev) : Reach s → Reach (step s e).1

/-- Guard for the amended membership claim: a `join` is only sent by a
connection that is unbound or already bound to the very room it joins
(ruling out the second-join-to-a-different-room defect). -/
def OkEv (s : SState) (e : Ev) : Prop :=
  match e with
  | .recv c (some d) =>
    d.type = "join" →
      (s.clients c = none ∨ ∃ i, s.clients c = some i ∧ i.roomId = d.roomId)
  | _ => True

/-- Reachability restricted to guarded event sequences. -/
inductive GReach : SState → Prop where
  | init : GReach initState
  | next (s : SState) (e : Ev) : GReach s → OkEv s e → GReach (step s e).1

/-- Bidirectional registry consistency: a connection is a member of a
room exactly when its Connection Registry entry records that room. -/
def Consistent (s : SState) : Prop :=
  ∀ c R, c ∈ members s R ↔ ∃ i, s.clients c = some i ∧ i.roomId = R

/-- Every present room's member list is duplicate-free (it is a JS Set). -/
def RoomsNodup (s : SState) : Prop :=
  ∀ R l, s.rooms R = some l → l.Nodup

/-- Every room present in the Room Registry is non-empty. -/
def RoomsNE (s : SState) : Prop :=
  ∀ R l, s.rooms R = some l → l ≠ []

/-! ### Basic lemmas about the map and set helpers -/

lemma mapSet_eq {α β : Type} [DecidableEq α] (f : α → Option β) (k : α) (v : Option β) :
    mapSet f k v k = v := by
  simp [mapSet]

lemma mapSet_ne {α β : Type} [DecidableEq α] (f : α → Option β) {x k : α} (v : Option β)
    (h : x ≠ k) : mapSet f k v x = f x := by
  simp [mapSet, h]

lemma mapSet_mapSet {α β : Type} [DecidableEq α] (f : α → Option β) (k : α)
    (v v' : Option β) : mapSet (mapSet f k v) k v' = mapSet f k v' := by
  funext x
  by_cases hx : x = k <;> simp [mapSet, hx]

lemma mem_setAdd_self (l : List Conn) (c : Conn) : c ∈ setAdd l c := by
  unfold setAdd
  split <;> simp [*]

lemma mem_setAdd_iff {l : List Conn} {c w : Conn} (h : c ≠ w) :
    c ∈ setAdd l w ↔ c ∈ l := by
  unfold setAdd
  split <;> simp [h]

lemma setAdd_nodup {l : List Conn} {c : Conn} (h : l.Nodup) : (setAdd l c).Nodup := by
  unfold setAdd
  split
  · exact h
  · rename_i hc
    simpa [List.nodup_append] using ⟨h, hc⟩

lemma setAdd_ne_nil (l : List Conn) (c : Conn) : setAdd l c ≠ [] := by
  unfold setAdd
  split
  · rename_i hc
    intro hl
    rw [hl] at hc
    simp at hc
  · simp

lemma jsMapIds_isSome {cl : Conn → Option CInfo} :
    ∀ {l : List Conn}, (∀ m ∈ l, (cl m).isSome) → ∃ ys, jsMapIds cl l = some ys := by
  intro l
  induction l with
  | nil => exact fun _ => ⟨[], rfl⟩
  | cons a t ih =>
    intro h
    obtain ⟨i, hi⟩ := Option.isSome_iff_exists.mp (h a (by simp))
    obtain ⟨ys, hys⟩ := ih (fun m hm => h m (by simp [hm]))
    exact ⟨i.id :: ys, by simp [jsMapIds, hi, hys]⟩

lemma jsMapIds_none_ne_nil {cl : Conn → Option CInfo} {l : List Conn}
    (h : jsMapIds cl l = none) : l ≠ [] := by
  intro hl
  rw [hl] at h
  simp [jsMapIds] at h

lemma jsMapIds_none_ex {cl : Conn → Option CInfo} :
    ∀ {l : List Conn}, jsMapIds cl l = none → ∃ m ∈ l, cl m = none := by
  intro l
  induction l with
  | nil => intro h; simp [jsMapIds] at h
  | cons a t ih =>
    intro h
    cases ha : cl a with
    | none => exact ⟨a, by simp, ha⟩
    | some i =>
      rw [jsMapIds, ha] at h
      cases ht : jsMapIds cl t with
      | none =>
        obtain ⟨m, hm, hcm⟩ := ih ht
        exact ⟨m, by simp [hm], hcm⟩
      | some ys => rw [ht] at h; simp at h

lemma jsMapIds_mem {cl : Conn → Option CInfo} :
    ∀ {l : List Conn} {ys : List JStr} {m : Conn} {j : CInfo},
      jsMapIds cl l = some ys → m ∈ l → cl m = some j → j.id ∈ ys := by
  intro l
  induction l with
  | nil => intro ys m j _ hm; simp at hm
  | cons a t ih =>
    intro ys m j hys hm hj
    cases ha : cl a with
    | none => rw [jsMapIds, ha] at hys; simp at hys
    | some i =>
      rw [jsMapIds, ha] at hys
      obtain ⟨ts, hts, rfl⟩ := Option.map_eq_some'.mp hys
      rcases List.mem_cons.mp hm with rfl | hmt
      · rw [ha] at hj
        injection hj with hj
        subst hj
        simp
      · exact List.mem_cons_of_mem _ (ih hts hmt hj)

/-! ### Shape lemmas for the handlers -/

lemma handleSignaling_state (s : SState) (w : Conn) (d : JsonMsg) :
    (handleSignaling s w d).1 = s := by
  cases h : s.clients w with
  | none => simp [handleSignaling, h]
  | some client =>
    cases h2 : s.rooms client.roomId <;> simp [handleSignaling, h, h2]

lemma handleJoin_room_absent (s : SState) (w : Conn) (d : JsonMsg)
    (h : s.rooms d.roomId = none) :
    handleJoin s w d =
      ({ rooms := mapSet s.rooms d.roomId (some [w]),
         clients := mapSet s.clients w (some ⟨d.clientId, d.roomId⟩),
         ready := s.ready },
       [(w, SMsg.existingClients [])]) := by
  simp [handleJoin, bindClient, ensureRoom, members, h, jsMapIds, setAdd,
    mapSet_eq, mapSet_mapSet, List.filter]

lemma handleJoin_room_present (s : SState) (w : Conn) (d : JsonMsg)
    (room : List Conn) (ex : List JStr) (h : s.rooms d.roomId = some room)
    (hex : jsMapIds (mapSet s.clients w (some ⟨d.clientId, d.roomId⟩)) room = some ex) :
    handleJoin s w d =
      ({ rooms := mapSet s.rooms d.roomId (some (setAdd room w)),
         clients := mapSet s.clients w (some ⟨d.clientId, d.roomId⟩),
         ready := s.ready },
       (w, SMsg.existingClients ex) ::
         ((setAdd room w).filter (fun c => !(c == w) && s.ready c)).map
           (fun c => (c, SMsg.newClient d.clientId))) := by
  simp [handleJoin, bindClient, ensureRoom, members, h, hex]

lemma handleJoin_throw (s : SState) (w : Conn) (d : JsonMsg) (room : List Conn)
    (h : s.rooms d.roomId = some room)
    (hex : jsMapIds (mapSet s.clients w (some ⟨d.clientId, d.roomId⟩)) room = none) :
    handleJoin s w d =
      ({ s with clients := mapSet s.clients w (some ⟨d.clientId, d.roomId⟩) }, []) := by
  simp [handleJoin, bindClient, ensureRoom, members, h, hex]

lemma handleLeave_unbound (s : SState) (w : Conn) (h : s.clients w = none) :
    handleLeave s w = (s, []) := by
  simp [handleLeave, h]

lemma handleLeave_room_absent (s : SState) (w : Conn) (i : CInfo)
    (h : s.clients w = some i) (hr : s.rooms i.roomId = none) :
    handleLeave s w = ({ s with clients := mapSet s.clients w none }, []) := by
  simp [handleLeave, h, hr]

lemma handleLeave_throw (s : SState) (w : Conn) (i : CInfo) (room : List Conn)
    (h : s.clients w = some i) (hr : s.rooms i.roomId = some room)
    (hex : jsMapIds s.clients (room.erase w) = none) :
    handleLeave s w =
      ({ s with rooms := mapSet s.rooms i.roomId (some (room.erase w)) },
       ((room.erase w).filter (fun c => s.ready c)).map
         (fun c => (c, SMsg.clientLeft i.id))) := by
  simp [handleLeave, h, hr, hex]

lemma handleLeave_ok (s : SState) (w : Conn) (i : CInfo) (room : List Conn)
    (ex : List JStr) (h : s.clients w = some i) (hr : s.rooms i.roomId = some room)
    (hex : jsMapIds s.clients (room.erase w) = some ex) :
    handleLeave s w =
      ({ rooms := if room.erase w = [] then mapSet s.rooms i.roomId none
                  else mapSet s.rooms i.roomId (some (room.erase w)),
         clients := mapSet s.clients w none,
         ready := s.ready },
       ((room.erase w).filter (fun c => s.ready c)).map
         (fun c => (c, SMsg.clientLeft i.id))) := by
  simp only [handleLeave, h, hr, hex]
  split <;> simp [mapSet_mapSet]

lemma handleLeave_sends (s : SState) (w : Conn) (i : CInfo) (room : List Conn)
    (h : s.clients w = some i) (hr : s.rooms i.roomId = some room) :
    (handleLeave s w).2 =
      ((room.erase w).filter (fun c => s.ready c)).map
        (fun c => (c, SMsg.clientLeft i.id)) := by
  cases hex : jsMapIds s.clients (room.erase w) with
  | none => rw [handleLeave_throw s w i room h hr hex]
  | some ex => rw [handleLeave_ok s w i room ex h hr hex]

/-! ### Shape lemmas for the dispatch -/

lemma step_join (s : SState) (c : Conn) (d : JsonMsg) (h : d.type = "join") :
    step s (.recv c (some d)) = handleJoin s c d := by
  simp [step, h]

lemma step_signal (s : SState) (c : Conn) (d : JsonMsg)
    (h : d.type = "offer" ∨ d.type = "answer" ∨ d.type = "ice-candidate") :
    step s (.recv c (some d)) = handleSignaling s c d := by
  rcases h with h | h | h <;> simp [step, h]

lemma step_leave (s : SState) (c : Conn) (d : JsonMsg) (h : d.type = "leave") :
    step s (.recv c (some d)) = handleLeave s c := by
  simp [step, h]

lemma step_unknown (s : SState) (c : Conn) (d : JsonMsg)
    (h1 : d.type ≠ "join") (h2 : d.type ≠ "offer") (h3 : d.type ≠ "answer")
    (h4 : d.type ≠ "ice-candidate") (h5 : d.type ≠ "leave") :
    step s (.recv c (some d)) = (s, []) := by
  simp [step, h1, h2, h3, h4, h5]

/-! ### Consequences of registry consistency -/

lemma not_mem_of_clients_none {s : SState} (hC : Consistent s) {w : Conn}
    (h : s.clients w = none) (R : JStr) : w ∉ members s R := by
  intro hm
  obtain ⟨i, hi, _⟩ := (hC w R).mp hm
  rw [h] at hi
  exact Option.noConfusion hi

lemma not_mem_of_clients_other {s : SState} (hC : Consistent s) {w : Conn} {i : CInfo}
    (h : s.clients w = some i) {R : JStr} (hR : R ≠ i.roomId) : w ∉ members s R := by
  intro hm
  obtain ⟨j, hj, hjR⟩ := (hC w R).mp hm
  rw [h] at hj
  injection hj with hj
  subst hj
  exact hR hjR.symm

lemma clients_isSome_of_mem {s : SState} (hC : Consistent s) {m : Conn} {R : JStr}
    (h : m ∈ members s R) : (s.clients m).isSome := by
  obtain ⟨i, hi, _⟩ := (hC m R).mp h
  simp [hi]

/-! ### Preservation of consistency and duplicate-freeness -/

lemma members_nodup {s : SState} (hN : RoomsNodup s) (R : JStr) : (members s R).Nodup := by
  unfold members
  cases h : s.rooms R with
  | none => simp
  | some l => simpa using hN _ _ h

lemma consistent_after_add (s : SState) (w : Conn) (cid : JStr) (R0 : JStr)
    (rd : Conn → Bool) (hC : Consistent s) (hnm : ∀ R, R ≠ R0 → w ∉ members s R) :
    Consistent ⟨mapSet s.rooms R0 (some (setAdd (members s R0) w)),
                mapSet s.clients w (some ⟨cid, R0⟩), rd⟩ := by
  intro c R
  show c ∈ (mapSet s.rooms R0 (some (setAdd (members s R0) w)) R).getD [] ↔
    ∃ i, mapSet s.clients w (some ⟨cid, R0⟩) c = some i ∧ i.roomId = R
  by_cases hc : c = w
  · subst hc
    by_cases hR : R = R0
    · subst hR
      rw [mapSet_eq, mapSet_eq]
      simp only [Option.getD_some]
      constructor
      · intro _
        exact ⟨⟨cid, R⟩, rfl, rfl⟩
      · intro _
        exact mem_setAdd_self _ _
    · rw [mapSet_ne _ _ hR, mapSet_eq]
      constructor
      · intro hm
        exact absurd hm (hnm R hR)
      · rintro ⟨i, hi, hiR⟩
        injection hi with hi
        subst hi
        exact absurd hiR.symm hR
  · rw [mapSet_ne _ _ hc]
    by_cases hR : R = R0
    · subst hR
      rw [mapSet_eq]
      simp only [Option.getD_some]
      rw [mem_setAdd_iff hc]
      exact hC c R
    · rw [mapSet_ne _ _ hR]
      exact hC c R

lemma nodup_after_add (s : SState) (w : Conn) (R0 : JStr) (cl : Conn → Option CInfo)
    (rd : Conn → Bool) (hN : RoomsNodup s) :
    RoomsNodup ⟨mapSet s.rooms R0 (some (setAdd (members s R0) w)), cl, rd⟩ := by
  intro R l hl
  have hl' : mapSet s.rooms R0 (some (setAdd (members s R0) w)) R = some l := hl
  by_cases hR : R = R0
  · subst hR
    rw [mapSet_eq] at hl'
    injection hl' with hl'
    subst hl'
    exact setAdd_nodup (members_nodup hN R)
  · rw [mapSet_ne _ _ hR] at hl'
    exact hN R l hl'

/-- A join whose sender is unbound, or bound to the very room being
joined, preserves consistency and duplicate-freeness. -/
lemma inv_handleJoin (s : SState) (w : Conn) (d : JsonMsg)
    (hg : s.clients w = none ∨ ∃ i, s.clients w = some i ∧ i.roomId = d.roomId)
    (hC : Consistent s) (hN : RoomsNodup s) :
    Consistent (handleJoin s w d).1 ∧ RoomsNodup (handleJoin s w d).1 := by
  have hnotmem : ∀ R, R ≠ d.roomId → w ∉ members s R := by
    intro R hR
    rcases hg with hu | ⟨i, hi, hiR⟩
    · exact not_mem_of_clients_none hC hu R
    · exact not_mem_of_clients_other hC hi (by rw [hiR]; exact hR)
  cases hroom : s.rooms d.roomId with
  | none =>
    have hm0 : members s d.roomId = [] := by simp [members, hroom]
    have hst : (handleJoin s w d).1 =
        ⟨mapSet s.rooms d.roomId (some (setAdd (members s d.roomId) w)),
         mapSet s.clients w (some ⟨d.clientId, d.roomId⟩), s.ready⟩ := by
      rw [handleJoin_room_absent s w d hroom, hm0]
      simp [setAdd]
    rw [hst]
    exact ⟨consistent_after_add s w d.clientId d.roomId s.ready hC hnotmem,
           nodup_after_add s w d.roomId _ s.ready hN⟩
  | some room =>
    have hm0 : members s d.roomId = room := by simp [members, hroom]
    have hsome : ∀ m ∈ room,
        ((mapSet s.clients w (some ⟨d.clientId, d.roomId⟩)) m).isSome := by
      intro m hm
      by_cases hmw : m = w
      · subst hmw
        rw [mapSet_eq]
        rfl
      · rw [mapSet_ne _ _ hmw]
        exact clients_isSome_of_mem hC (by rw [hm0]; exact hm)
    obtain ⟨ex, hex⟩ := jsMapIds_isSome hsome
    have hst : (handleJoin s w d).1 =
        ⟨mapSet s.rooms d.roomId (some (setAdd (members s d.roomId) w)),
         mapSet s.clients w (some ⟨d.clientId, d.roomId⟩), s.ready⟩ := by
      rw [handleJoin_room_present s w d room ex hroom hex, hm0]
    rw [hst]
    exact ⟨consistent_after_add s w d.clientId d.roomId s.ready hC hnotmem,
           nodup_after_add s w d.roomId _ s.ready hN⟩

lemma consistent_after_remove (s : SState) (w : Conn) (i : CInfo) (rd : Conn → Bool)
    (hC : Consistent s) (hN : RoomsNodup s) (h : s.clients w = some i)
    (room : List Conn) (hroom : s.rooms i.roomId = some room) :
    Consistent ⟨(if room.erase w = [] then mapSet s.rooms i.roomId none
                 else mapSet s.rooms i.roomId (some (room.erase w))),
                mapSet s.clients w none, rd⟩ := by
  have hroomsR : ∀ R, ((if room.erase w = [] then mapSet s.rooms i.roomId none
      else mapSet s.rooms i.roomId (some (room.erase w))) R).getD [] =
      if R = i.roomId then room.erase w else members s R := by
    intro R
    by_cases he : room.erase w = [] <;> by_cases hR : R = i.roomId <;>
      simp [he, hR, mapSet_eq, mapSet_ne, members]
  intro c R
  show c ∈ ((if room.erase w = [] then mapSet s.rooms i.roomId none
      else mapSet s.rooms i.roomId (some (room.erase w))) R).getD [] ↔
    ∃ j, mapSet s.clients w none c = some j ∧ j.roomId = R
  rw [hroomsR R]
  by_cases hc : c = w
  · subst hc
    rw [mapSet_eq]
    constructor
    · intro hm
      by_cases hR : R = i.roomId
      · rw [if_pos hR] at hm
        exact absurd hm (List.Nodup.not_mem_erase (hN _ _ hroom))
      · rw [if_neg hR] at hm
        exact absurd hm (not_mem_of_clients_other hC h hR)
    · rintro ⟨j, hj, _⟩
      exact Option.noConfusion hj
  · rw [mapSet_ne _ _ hc]
    by_cases hR : R = i.roomId
    · subst hR
      rw [if_pos rfl, List.mem_erase_of_ne hc]
      have hmr : room = members s i.roomId := by simp [members, hroom]
      rw [hmr]
      exact hC c i.roomId
    · rw [if_neg hR]
      exact hC c R

lemma nodup_after_remove (s : SState) (w : Conn) (i : CInfo) (cl : Conn → Option CInfo)
    (rd : Conn → Bool) (hN : RoomsNodup s) (room : List Conn)
    (hroom : s.rooms i.roomId = some room) :
    RoomsNodup ⟨(if room.erase w = [] then mapSet s.rooms i.roomId none
                 else mapSet s.rooms i.roomId (some (room.erase w))), cl, rd⟩ := by
  intro R l hl
  have hl' : (if room.erase w = [] then mapSet s.rooms i.roomId none
      else mapSet s.rooms i.roomId (some (room.erase w))) R = some l := hl
  by_cases hR : R = i.roomId
  · subst hR
    by_cases he : room.erase w = []
    · rw [if_pos he, mapSet_eq] at hl'
      exact Option.noConfusion hl'
    · rw [if_neg he, mapSet_eq] at hl'
      injection hl' with hl'
      subst hl'
      exact List.Nodup.erase _ (hN _ _ hroom)
  · split at hl' <;> rw [mapSet_ne _ _ hR] at hl' <;> exact hN R l hl'

/-- A leave (or transport close) preserves consistency and
duplicate-freeness. -/
lemma inv_handleLeave (s : SState) (w : Conn) (hC : Consistent s) (hN : RoomsNodup s) :
    Consistent (handleLeave s w).1 ∧ RoomsNodup (handleLeave s w).1 := by
  cases h : s.clients w with
  | none =>
    rw [handleLeave_unbound s w h]
    exact ⟨hC, hN⟩
  | some i =>
    cases hroom : s.rooms i.roomId with
    | none =>
      exfalso
      have hm := (hC w i.roomId).mpr ⟨i, h, rfl⟩
      rw [show members s i.roomId = [] from by simp [members, hroom]] at hm
      simp at hm
    | some room =>
      have herased : ∀ m ∈ room.erase w, (s.clients m).isSome := by
        intro m hm
        have hmem : m ∈ members s i.roomId := by
          rw [show members s i.roomId = room from by simp [members, hroom]]
          exact List.erase_subset _ _ hm
        exact clients_isSome_of_mem hC hmem
      obtain ⟨ex, hex⟩ := jsMapIds_isSome herased
      have hst : (handleLeave s w).1 =
          ⟨(if room.erase w = [] then mapSet s.rooms i.roomId none
            else mapSet s.rooms i.roomId (some (room.erase w))),
           mapSet s.clients w none, s.ready⟩ := by
        rw [handleLeave_ok s w i room ex h hroom hex]
      rw [hst]
      exact ⟨consistent_after_remove s w i s.ready hC hN h room hroom,
             nodup_after_remove s w i _ s.ready hN room hroom⟩

/-- Both invariants hold in every guarded-reachable state. -/
lemma inv_GReach {s : SState} (h : GReach s) : Consistent s ∧ RoomsNodup s := by
  induction h with
  | init =>
    constructor
    · intro c R
      simp [members, initState]
    · intro R l hl
      simp [initState] at hl
  | next s e hr hok ih =>
    obtain ⟨hC, hN⟩ := ih
    cases e with
    | recv c m =>
      cases m with
      | none => exact ⟨hC, hN⟩
      | some d =>
        by_cases hj : d.type = "join"
        · rw [step_join s c d hj]
          exact inv_handleJoin s c d (hok hj) hC hN
        · by_cases hsig : d.type = "offer" ∨ d.type = "answer" ∨ d.type = "ice-candidate"
          · rw [step_signal s c d hsig, handleSignaling_state]
            exact ⟨hC, hN⟩
          · by_cases hl : d.type = "leave"
            · rw [step_leave s c d hl]
              exact inv_handleLeave s c hC hN
            · push_neg at hsig
              rw [step_unknown s c d hj hsig.1 hsig.2.1 hsig.2.2 hl]
              exact ⟨hC, hN⟩
    | disconnect c =>
      have hC' : Consistent ⟨s.rooms, s.clients, bSet s.ready c false⟩ := hC
      have hN' : RoomsNodup ⟨s.rooms, s.clients, bSet s.ready c false⟩ := hN
      exact inv_handleLeave _ c hC' hN'

/-! ### The room-present-iff-nonempty invariant, over all event sequences -/

lemma NE_handleJoin (s : SState) (w : Conn) (d : JsonMsg) (hne : RoomsNE s) :
    RoomsNE (handleJoin s w d).1 := by
  cases hroom : s.rooms d.roomId with
  | none =>
    rw [handleJoin_room_absent s w d hroom]
    intro R l hl
    have hl' : mapSet s.rooms d.roomId (some [w]) R = some l := hl
    by_cases hR : R = d.roomId
    · subst hR
      rw [mapSet_eq] at hl'
      injection hl' with hl'
      subst hl'
      simp
    · rw [mapSet_ne _ _ hR] at hl'
      exact hne R l hl'
  | some room =>
    cases hex : jsMapIds (mapSet s.clients w (some ⟨d.clientId, d.roomId⟩)) room with
    | none =>
      rw [handleJoin_throw s w d room hroom hex]
      intro R l hl
      exact hne R l hl
    | some ex =>
      rw [handleJoin_room_present s w d room ex hroom hex]
      intro R l hl
      have hl' : mapSet s.rooms d.roomId (some (setAdd room w)) R = some l := hl
      by_cases hR : R = d.roomId
      · subst hR
        rw [mapSet_eq] at hl'
        injection hl' with hl'
        subst hl'
        exact setAdd_ne_nil room w
      · rw [mapSet_ne _ _ hR] at hl'
        exact hne R l hl'

lemma NE_handleLeave (s : SState) (w : Conn) (hne : RoomsNE s) :
    RoomsNE (handleLeave s w).1 := by
  cases h : s.clients w with
  | none =>
    rw [handleLeave_unbound s w h]
    exact hne
  | some i =>
    cases hroom : s.rooms i.roomId with
    | none =>
      rw [handleLeave_room_absent s w i h hroom]
      intro R l hl
      exact hne R l hl
    | some room =>
      cases hex : jsMapIds s.clients (room.erase w) with
      | none =>
        rw [handleLeave_throw s w i room h hroom hex]
        intro R l hl
        have hl' : mapSet s.rooms i.roomId (some (room.erase w)) R = some l := hl
        by_cases hR : R = i.roomId
        · subst hR
          rw [mapSet_eq] at hl'
          injection hl' with hl'
          subst hl'
          exact jsMapIds_none_ne_nil hex
        · rw [mapSet_ne _ _ hR] at hl'
          exact hne R l hl'
      | some ex =>
        rw [handleLeave_ok s w i room ex h hroom hex]
        intro R l hl
        have hl' : (if room.erase w = [] then mapSet s.rooms i.roomId none
            else mapSet s.rooms i.roomId (some (room.erase w))) R = some l := hl
        by_cases he : room.erase w = []
        · rw [if_pos he] at hl'
          by_cases hR : R = i.roomId
          · subst hR
            rw [mapSet_eq] at hl'
            exact Option.noConfusion hl'
          · rw [mapSet_ne _ _ hR] at hl'
            exact hne R l hl'
        · rw [if_neg he] at hl'
          by_cases hR : R = i.roomId
          · subst hR
            rw [mapSet_eq] at hl'
            injection hl' with hl'
            subst hl'
            exact he
          · rw [mapSet_ne _ _ hR] at hl'
            exact hne R l hl'

lemma NE_Reach {s : SState} (h : Reach s) : RoomsNE s := by
  induction h with
  | init =>
    intro R l hl
    simp [initState] at hl
  | next s e hr ih =>
    cases e with
    | recv c m =>
      cases m with
      | none => exact ih
      | some d =>
        by_cases hj : d.type = "join"
        · rw [step_join s c d hj]
          exact NE_handleJoin s c d ih
        · by_cases hsig : d.type = "offer" ∨ d.type = "answer" ∨ d.type = "ice-candidate"
          · rw [step_signal s c d hsig, handleSignaling_state]
            exact ih
          · by_cases hl : d.type = "leave"
            · rw [step_leave s c d hl]
              exact NE_handleLeave s c ih
            · push_neg at hsig
              rw [step_unknown s c d hj hsig.1 hsig.2.1 hsig.2.2 hl]
              exact ih
    | disconnect c =>
      have hne' : RoomsNE ⟨s.rooms, s.clients, bSet s.ready c false⟩ := ih
      exact NE_handleLeave _ c hne'

/-! ### Broadcast counting helpers -/

lemma filter_eq_single_of_nodup {l : List Conn} {t : Conn} (g : Conn → Bool)
    (hnd : l.Nodup) (ht : t ∈ l) (hg : g t = true) :
    l.filter (fun c => decide (c = t) && g c) = [t] := by
  induction l with
  | nil => simp at ht
  | cons a rest ih =>
    rcases List.mem_cons.mp ht with rfl | hrest
    · rw [List.filter_cons, if_pos (by simp [hg])]
      have hnil : rest.filter (fun c => decide (c = t) && g c) = [] := by
        rw [List.filter_eq_nil_iff]
        intro c hc
        have hca : c ≠ t := by
          rintro rfl
          exact (List.nodup_cons.mp hnd).1 hc
        simp [hca]
      rw [hnil]
    · have ha : a ≠ t := by
        rintro rfl
        exact (List.nodup_cons.mp hnd).1 hrest
      rw [List.filter_cons, if_neg (by simp [ha])]
      exact ih (List.nodup_cons.mp hnd).2 hrest

lemma sends_filter_single (l : List Conn) (g : Conn → Bool) (msg : SMsg) (t : Conn)
    (hnd : l.Nodup) (ht : t ∈ l) (hg : g t = true) :
    ((l.filter g).map (fun c => (c, msg))).filter (fun p => decide (p.1 = t)) =
      [(t, msg)] := by
  rw [List.filter_map]
  rw [show ((fun p : Send => decide (p.1 = t)) ∘ (fun c => (c, msg))) =
    fun c => decide (c = t) from rfl]
  rw [List.filter_filter, filter_eq_single_of_nodup g hnd ht hg]
  rfl

lemma sends_filter_nil (l : List Conn) (g : Conn → Bool) (msg : SMsg) (t : Conn)
    (ht : t ∉ l) :
    ((l.filter g).map (fun c => (c, msg))).filter (fun p => decide (p.1 = t)) = [] := by
  rw [List.filter_map]
  rw [show ((fun p : Send => decide (p.1 = t)) ∘ (fun c => (c, msg))) =
    fun c => decide (c = t) from rfl]
  rw [List.filter_filter]
  have hnil : l.filter (fun c => decide (c = t) && g c) = [] := by
    rw [List.filter_eq_nil_iff]
    intro c hc
    have hct : c ≠ t := by
      rintro rfl
      exact ht hc
    simp [hct]
  rw [hnil]
  rfl

/-! ### Concrete scenario runs used as witnesses and counterexamples -/

/-- A `join` message with the given room and client id. -/
def jmJoin (r cid : JStr) : JsonMsg := ⟨"join", r, cid, none, ""⟩

/-- An `offer` message with the given target id. -/
def jmOffer (tgt : JStr) : JsonMsg := ⟨"offer", none, none, tgt, ""⟩

/-- A bare `leave` message. -/
def jmLeave : JsonMsg := ⟨"leave", none, none, none, ""⟩

/-- Connection 0 joins room `r` as `Y`. -/
def exS1 : SState := (step initState (.recv 0 (some (jmJoin (some "r") (some "Y"))))).1

/-- Then connection 1 joins room `r` as `X`. -/
def exS2 : SState := (step exS1 (.recv 1 (some (jmJoin (some "r") (some "X"))))).1

/-- Then connection 2 also joins room `r` claiming the same id `X`. -/
def exS3 : SState := (step exS2 (.recv 2 (some (jmJoin (some "r") (some "X"))))).1

/-- Connection 0 joins room `a`, then sends a second join for room `b`. -/
def cexS : SState :=
  (step (step initState (.recv 0 (some (jmJoin (some "a") (some "x"))))).1
    (.recv 0 (some (jmJoin (some "b") (some "x"))))).1

/-- Connection 3 joins with an empty-string room id. -/
def cexS7 : SState := (step initState (.recv 3 (some (jmJoin (some "") (some "x"))))).1

/-! ### Claim theorems -/

/-- C4 (confirmed): at every quiescent point of every event sequence —
joins, signaling, leaves, transport closes, malformed frames, with any
field values — a room identifier is present in the Room Registry iff
its member set is non-empty; in particular, once the last member of a
room has left (by `leave` or by close), the room is absent. -/
theorem room_present_iff_members_nonempty (s : SState) (h : Reach s) (R : JStr) :
    (s.rooms R).isSome = true ↔ members s R ≠ [] := by
  constructor
  · intro hs
    obtain ⟨l, hl⟩ := Option.isSome_iff_exists.mp hs
    have hne := NE_Reach h R l hl
    simpa [members, hl] using hne
  · intro hm
    cases hl : s.rooms R with
    | none =>
      rw [show members s R = [] from by simp [members, hl]] at hm
      exact absurd rfl hm
    | some l => simp [hl]

/-- C4 witness: in the concrete reachable state where connection 0 has
joined room `r`, the room is present, obtained from the theorem via the
non-emptiness of its member list. -/
theorem room_present_iff_members_nonempty_witness :
    (exS1.rooms (some "r")).isSome = true :=
  (room_present_iff_members_nonempty exS1 (Reach.next _ _ Reach.init)
    (some "r")).mpr (by decide)

/-- C1 (counterexample): bidirectional membership consistency fails for
the sequence in which connection 0 joins room `a` and then sends a
second join for room `b`: connection 0 stays in room `a`'s member set
while its Connection Registry entry records room `b`. -/
theorem membership_consistency_cex : ¬ (∀ s, Reach s → Consistent s) := by
  intro h
  have hr : Reach cexS := Reach.next _ _ (Reach.next _ _ Reach.init)
  have hc := h cexS hr
  have hm : (0 : Conn) ∈ members cexS (some "a") := by decide
  obtain ⟨i, hi, hiR⟩ := (hc 0 (some "a")).mp hm
  rw [show cexS.clients 0 = some ⟨some "x", some "b"⟩ from by decide] at hi
  injection hi with hi
  subst hi
  exact absurd hiR (by decide)

/-- C1 (amended): bidirectional membership consistency holds at every
quiescent point of every event sequence in which each join is sent by a
connection that is unbound or already bound to the room it joins; i.e.
the invariant holds as long as no connection sends a second join for a
different room. -/
theorem membership_consistency_guarded (s : SState) (h : GReach s) : Consistent s :=
  (inv_GReach h).1

/-- C1 witness: the guarded invariant applied to the concrete guarded
run in which connection 0 joins room `r`. -/
theorem membership_consistency_guarded_witness : Consistent exS1 :=
  membership_consistency_guarded exS1
    (GReach.next initState _ GReach.init (fun _ => Or.inl rfl))

/-- C7 (counterexample): the router does record identities with an
empty room id: a join carrying `roomId = ""` from connection 3 is not
rejected, and binds `{ id: "x", roomId: "" }` in the Connection
Registry. -/
theorem nonempty_roomid_cex :
    ¬ (∀ s, Reach s → ∀ c i, s.clients c = some i →
        ∃ str, i.roomId = some str ∧ str ≠ "") := by
  intro h
  have hr : Reach cexS7 := Reach.next _ _ Reach.init
  obtain ⟨str, hstr, hne⟩ := h cexS7 hr 3 ⟨some "x", some ""⟩ (by decide)
  have hstr' : (some "" : JStr) = some str := hstr
  injection hstr' with hstr'
  exact hne hstr'.symm

/-- C7 (amended): `handleJoin` performs no validation of the room id:
it always binds exactly the `clientId` and `roomId` carried by the join
message — empty or missing room ids included. -/
theorem join_binds_verbatim (s : SState) (w : Conn) (d : JsonMsg) :
    (handleJoin s w d).1.clients w = some ⟨d.clientId, d.roomId⟩ := by
  cases hroom : s.rooms d.roomId with
  | none =>
    rw [handleJoin_room_absent s w d hroom]
    exact mapSet_eq _ _ _
  | some room =>
    cases hex : jsMapIds (mapSet s.clients w (some ⟨d.clientId, d.roomId⟩)) room with
    | none =>
      rw [handleJoin_throw s w d room hroom hex]
      exact mapSet_eq _ _ _
    | some ex =>
      rw [handleJoin_room_present s w d room ex hroom hex]
      exact mapSet_eq _ _ _

/-- The `offer` message targeting id `X` used in the C2 run. -/
def dOffX : JsonMsg := jmOffer (some "X")

/-- C2 (counterexample): delivery is not limited to at most one
connection. In the reachable state where connections 1 and 2 both
joined room `r` claiming the same clientId `X`, an offer from
connection 0 targeting `X` is forwarded to two connections. -/
theorem targeted_delivery_cex :
    ¬ (∀ s, Reach s → ∀ w (d : JsonMsg), d.type = "offer" →
        (step s (.recv w (some d))).2.length ≤ 1) := by
  intro h
  have hlen := h exS3
    (Reach.next _ _ (Reach.next _ _ (Reach.next _ _ Reach.init))) 0 dOffX rfl
  revert hlen
  decide

/-- C2 (amended): an offer/answer/ice-candidate from a joined sender is
delivered to exactly the room members whose registered clientId equals
`targetId` and whose transport is open — every such member, so at most
one only when clientIds are unique in the room — with `fromId` set to
the sender's id and the message passed through unmodified, and the
registries unchanged; when no member matches, nothing is sent and
nothing is reported to the sender. -/
theorem targeted_delivery_characterization (s : SState) (w : Conn) (d : JsonMsg)
    (i : CInfo) (room : List Conn) (hw : s.clients w = some i)
    (hr : s.rooms i.roomId = some room) :
    (handleSignaling s w d).1 = s ∧
    (∀ t m, (t, m) ∈ (handleSignaling s w d).2 ↔
      (t ∈ room ∧ s.ready t = true ∧
        (∃ tc, s.clients t = some tc ∧ tc.id = d.targetId) ∧
        m = SMsg.fwd d i.id)) := by
  refine ⟨handleSignaling_state s w d, ?_⟩
  intro t m
  have hsends : (handleSignaling s w d).2 = room.filterMap (fun t =>
      match s.clients t with
      | none => none
      | some tc =>
        if tc.id = d.targetId ∧ s.ready t = true then
          some (t, SMsg.fwd d i.id)
        else none) := by
    simp [handleSignaling, hw, hr]
  rw [hsends, List.mem_filterMap]
  constructor
  · rintro ⟨a, ha, hfa⟩
    cases hca : s.clients a with
    | none =>
      rw [hca] at hfa
      exact absurd hfa (by simp)
    | some tc =>
      rw [hca] at hfa
      have hfa' : (if tc.id = d.targetId ∧ s.ready a = true then
          some (a, SMsg.fwd d i.id) else none) = some (t, m) := hfa
      by_cases hcond : tc.id = d.targetId ∧ s.ready a = true
      · rw [if_pos hcond] at hfa'
        have hp : (a, SMsg.fwd d i.id) = (t, m) := Option.some.inj hfa'
        have hat : a = t := congrArg Prod.fst hp
        have hmm : SMsg.fwd d i.id = m := congrArg Prod.snd hp
        subst hat
        exact ⟨ha, hcond.2, ⟨tc, hca, hcond.1⟩, hmm.symm⟩
      · rw [if_neg hcond] at hfa'
        exact absurd hfa' (by simp)
  · rintro ⟨ht, hrdy, ⟨tc, htc, hid⟩, rfl⟩
    refine ⟨t, ht, ?_⟩
    rw [htc]
    show (if tc.id = d.targetId ∧ s.ready t = true then
        some (t, SMsg.fwd d i.id) else none) = some (t, SMsg.fwd d i.id)
    rw [if_pos ⟨hid, hrdy⟩]

/-- C2 witness: in the concrete state where 0 is `Y` and 1 is `X` in
room `r`, the offer from 0 targeting `X` reaches connection 1 with
`fromId` `Y`. -/
theorem targeted_delivery_characterization_witness :
    (1, SMsg.fwd dOffX (some "Y")) ∈ (handleSignaling exS2 0 dOffX).2 :=
  ((targeted_delivery_characterization exS2 0 dOffX ⟨some "Y", some "r"⟩ [0, 1]
      (by decide) (by decide)).2 1 (SMsg.fwd dOffX (some "Y"))).mpr
    ⟨by decide, by decide, ⟨⟨some "X", some "r"⟩, by decide, by decide⟩, rfl⟩

/-- C3 (confirmed): when `c2` joins room `R` whose sole (open) member
is `c1`, the handler emits exactly two writes: one `existing-clients`
to `c2` listing exactly `c1`'s id — the membership before `c2` was
added — and one `new-client` with `c2`'s claimed id to `c1`; in
particular `c2` gets no `new-client` about itself. -/
theorem join_reply_completeness (s : SState) (c1 c2 : Conn) (d : JsonMsg)
    (i1 : CInfo) (hne : c1 ≠ c2) (h1 : s.clients c1 = some i1)
    (hroom : s.rooms d.roomId = some [c1]) (hrdy : s.ready c1 = true) :
    (handleJoin s c2 d).2 =
      [(c2, SMsg.existingClients [i1.id]), (c1, SMsg.newClient d.clientId)] := by
  have hex : jsMapIds (mapSet s.clients c2 (some ⟨d.clientId, d.roomId⟩)) [c1] =
      some [i1.id] := by
    rw [jsMapIds, mapSet_ne _ _ hne, h1]
    simp [jsMapIds]
  rw [handleJoin_room_present s c2 d [c1] [i1.id] hroom hex]
  have hadd : setAdd [c1] c2 = [c1, c2] := by
    have h21 : ¬ c2 = c1 := fun h => hne h.symm
    simp [setAdd, h21]
  rw [hadd]
  have hb1 : (c1 == c2) = false := beq_eq_false_iff_ne.mpr hne
  simp [List.filter, hb1, hrdy]

/-- C3 witness: connection 2 joins room `r` as `B` while connection 0
(`Y`) is the sole member: 2 is told the existing client `Y`, 0 is told
the new client `B`, and nothing else is sent. -/
theorem join_reply_completeness_witness :
    (handleJoin exS1 2 (jmJoin (some "r") (some "B"))).2 =
      [(2, SMsg.existingClients [some "Y"]), (0, SMsg.newClient (some "B"))] :=
  join_reply_completeness exS1 0 2 (jmJoin (some "r") (some "B"))
    ⟨some "Y", some "r"⟩ (by decide) (by decide) (by decide) (by decide)

/-- C5 (confirmed): whether the departure is an explicit `leave`
message or a transport close, every remaining member of the departing
connection's room whose transport is open receives exactly one
`client-left` carrying the departing connection's registered clientId,
and the departing connection receives none. -/
theorem departure_broadcast (s : SState) (w : Conn) (d : JsonMsg) (i : CInfo)
    (room : List Conn) (hd : d.type = "leave") (hw : s.clients w = some i)
    (hr : s.rooms i.roomId = some room) (hnd : room.Nodup) :
    (∀ t, t ∈ room → t ≠ w → s.ready t = true →
      ((step s (.recv w (some d))).2.filter (fun p => decide (p.1 = t)) =
          [(t, SMsg.clientLeft i.id)] ∧
       (step s (.disconnect w)).2.filter (fun p => decide (p.1 = t)) =
          [(t, SMsg.clientLeft i.id)])) ∧
    ((step s (.recv w (some d))).2.filter (fun p => decide (p.1 = w)) = [] ∧
     (step s (.disconnect w)).2.filter (fun p => decide (p.1 = w)) = []) := by
  have hL : (step s (.recv w (some d))).2 =
      ((room.erase w).filter (fun c => s.ready c)).map
        (fun c => (c, SMsg.clientLeft i.id)) := by
    rw [step_leave s w d hd]
    exact handleLeave_sends s w i room hw hr
  have hD : (step s (.disconnect w)).2 =
      ((room.erase w).filter (fun c => bSet s.ready w false c)).map
        (fun c => (c, SMsg.clientLeft i.id)) :=
    handleLeave_sends ⟨s.rooms, s.clients, bSet s.ready w false⟩ w i room hw hr
  have hfe : (room.erase w).filter (fun c => bSet s.ready w false c) =
      (room.erase w).filter (fun c => s.ready c) := by
    apply List.filter_congr
    intro x hx
    have hxw : x ≠ w := by
      rintro rfl
      exact (List.Nodup.not_mem_erase hnd) hx
    simp [bSet, hxw]
  have hnd2 : (room.erase w).Nodup := List.Nodup.erase _ hnd
  constructor
  · intro t htr htw hrdy
    have hmem : t ∈ room.erase w := (List.mem_erase_of_ne htw).mpr htr
    constructor
    · rw [hL]
      exact sends_filter_single _ _ _ _ hnd2 hmem hrdy
    · rw [hD, hfe]
      exact sends_filter_single _ _ _ _ hnd2 hmem hrdy
  · have hwnot : w ∉ room.erase w := List.Nodup.not_mem_erase hnd
    constructor
    · rw [hL]
      exact sends_filter_nil _ _ _ _ hwnot
    · rw [hD, hfe]
      exact sends_filter_nil _ _ _ _ hwnot

/-- C5 witness: with 0 (`Y`) and 1 (`X`) in room `r`, a leave message
from 0 and a transport close of 0 each produce exactly one
`client-left{Y}` to connection 1. -/
theorem departure_broadcast_witness :
    ((step exS2 (.recv 0 (some jmLeave))).2.filter (fun p => decide (p.1 = 1)) =
        [(1, SMsg.clientLeft (some "Y"))]) ∧
    ((step exS2 (.disconnect 0)).2.filter (fun p => decide (p.1 = 1)) =
        [(1, SMsg.clientLeft (some "Y"))]) :=
  (departure_broadcast exS2 0 jmLeave ⟨some "Y", some "r"⟩ [0, 1] rfl
      (by decide) (by decide) (by decide)).1 1 (by decide) (by decide) (by decide)

/-- C6 (confirmed): a connection with no bound identity sending an
offer, answer, ice-candidate, or leave changes neither registry and
triggers no write to anyone — and since the state is unchanged, an
immediately repeated leave (a second leave in a row) is again a silent
no-op. -/
theorem unjoined_message_drop (s : SState) (c : Conn) (d : JsonMsg)
    (h : s.clients c = none)
    (ht : d.type = "offer" ∨ d.type = "answer" ∨ d.type = "ice-candidate" ∨
      d.type = "leave") :
    step s (.recv c (some d)) = (s, []) ∧
    step (step s (.recv c (some d))).1 (.recv c (some d)) = (s, []) := by
  have h1 : step s (.recv c (some d)) = (s, []) := by
    rcases ht with h' | h' | h' | h'
    · rw [step_signal s c d (Or.inl h')]
      simp [handleSignaling, h]
    · rw [step_signal s c d (Or.inr (Or.inl h'))]
      simp [handleSignaling, h]
    · rw [step_signal s c d (Or.inr (Or.inr h'))]
      simp [handleSignaling, h]
    · rw [step_leave s c d h']
      exact handleLeave_unbound s c h
  refine ⟨h1, ?_⟩
  rw [h1]
  exact h1

/-- C6 witness: a fresh connection that never joined sends `leave`
twice; both are dropped with no state change and no writes. -/
theorem unjoined_message_drop_witness :
    step initState (.recv 0 (some jmLeave)) = (initState, []) ∧
    step (step initState (.recv 0 (some jmLeave))).1 (.recv 0 (some jmLeave)) =
      (initState, []) :=
  unjoined_message_drop initState 0 jmLeave rfl (Or.inr (Or.inr (Or.inr rfl)))

/-- C8 (confirmed): an unparseable frame, or a message whose `type` is
none of the five recognized types, leaves the whole state (both
registries and the liveness flags) unchanged and produces no writes to
anyone, for a connection in any state. -/
theorem malformed_message_atomicity (s : SState) (c : Conn) :
    step s (.recv c none) = (s, []) ∧
    ∀ d : JsonMsg, d.type ≠ "join" → d.type ≠ "offer" → d.type ≠ "answer" →
      d.type ≠ "ice-candidate" → d.type ≠ "leave" →
      step s (.recv c (some d)) = (s, []) :=
  ⟨rfl, fun d h1 h2 h3 h4 h5 => step_unknown s c d h1 h2 h3 h4 h5⟩

/-- C8 witness: a message of unrecognized type `ping` sent to the
joined state is dropped without any effect. -/
theorem malformed_message_atomicity_witness :
    step exS1 (.recv 0 (some ⟨"ping", none, none, none, ""⟩)) = (exS1, []) :=
  (malformed_message_atomicity exS1 0).2 ⟨"ping", none, none, none, ""⟩
    (by decide) (by decide) (by decide) (by decide) (by decide)

/-- C9 (confirmed): the sender is not excluded from the candidate
targets: a joined connection whose own registered id equals the
message's `targetId` (and whose transport is open) receives the
forwarded message itself, with `fromId` equal to its own id. -/
theorem self_targeted_delivery (s : SState) (w : Conn) (d : JsonMsg) (i : CInfo)
    (room : List Conn) (hw : s.clients w = some i) (hr : s.rooms i.roomId = some room)
    (hmem : w ∈ room) (hrdy : s.ready w = true) (htgt : d.targetId = i.id) :
    (w, SMsg.fwd d i.id) ∈ (handleSignaling s w d).2 := by
  have hsends : (handleSignaling s w d).2 = room.filterMap (fun t =>
      match s.clients t with
      | none => none
      | some tc =>
        if tc.id = d.targetId ∧ s.ready t = true then
          some (t, SMsg.fwd d i.id)
        else none) := by
    simp [handleSignaling, hw, hr]
  rw [hsends, List.mem_filterMap]
  refine ⟨w, hmem, ?_⟩
  rw [hw]
  show (if i.id = d.targetId ∧ s.ready w = true then
      some (w, SMsg.fwd d i.id) else none) = some (w, SMsg.fwd d i.id)
  rw [if_pos ⟨htgt.symm, hrdy⟩]

/-- C9 witness: connection 0 (`Y`, alone in room `r`) sends an offer
targeting `Y` and receives it back with `fromId` `Y`. -/
theorem self_targeted_delivery_witness :
    (0, SMsg.fwd (jmOffer (some "Y")) (some "Y")) ∈
      (handleSignaling exS1 0 (jmOffer (some "Y"))).2 :=
  self_targeted_delivery exS1 0 (jmOffer (some "Y")) ⟨some "Y", some "r"⟩ [0]
    (by decide) (by decide) (by decide) (by decide) rfl

/-- C10 (confirmed): a second join by an already-joined connection for
its same room leaves every room's member list unchanged, and the
`existing-clients` reply it receives includes its own clientId — the
membership snapshot is taken while the connection is already a member,
with its just-rewritten registry entry. -/
theorem repeat_join_same_room (s : SState) (c : Conn) (d : JsonMsg) (i : CInfo)
    (room : List Conn) (hc : s.clients c = some i) (hid : d.clientId = i.id)
    (hrm : d.roomId = i.roomId) (hroom : s.rooms i.roomId = some room)
    (hmem : c ∈ room) (hall : ∀ m ∈ room, ∃ j, s.clients m = some j) :
    (∃ l rest, (handleJoin s c d).2 = (c, SMsg.existingClients l) :: rest ∧
      i.id ∈ l) ∧
    (∀ R', (handleJoin s c d).1.rooms R' = s.rooms R') := by
  have hroom' : s.rooms d.roomId = some room := by
    rw [hrm]
    exact hroom
  have hsome : ∀ m ∈ room,
      ((mapSet s.clients c (some ⟨d.clientId, d.roomId⟩)) m).isSome := by
    intro m hm
    by_cases hmc : m = c
    · subst hmc
      rw [mapSet_eq]
      rfl
    · rw [mapSet_ne _ _ hmc]
      obtain ⟨j, hj⟩ := hall m hm
      simp [hj]
  obtain ⟨ex, hex⟩ := jsMapIds_isSome hsome
  have hidmem : i.id ∈ ex := by
    have hm2 := jsMapIds_mem hex hmem (mapSet_eq s.clients c (some ⟨d.clientId, d.roomId⟩))
    rw [← hid]
    exact hm2
  have hadd : setAdd room c = room := by
    simp [setAdd, hmem]
  rw [handleJoin_room_present s c d room ex hroom' hex]
  constructor
  · exact ⟨ex, _, rfl, hidmem⟩
  · intro R'
    show mapSet s.rooms d.roomId (some (setAdd room c)) R' = s.rooms R'
    rw [hadd]
    by_cases hR : R' = d.roomId
    · subst hR
      rw [mapSet_eq, hroom']
    · rw [mapSet_ne _ _ hR]

/-- C10 witness: connection 0 (already `Y` in room `r` together with 1)
sends a second join for room `r`: the reply lists include its own id
`Y` and the Room Registry is untouched. -/
theorem repeat_join_same_room_witness :
    (∃ l rest, (handleJoin exS2 0 (jmJoin (some "r") (some "Y"))).2 =
        (0, SMsg.existingClients l) :: rest ∧ (some "Y" : JStr) ∈ l) ∧
    (∀ R', (handleJoin exS2 0 (jmJoin (some "r") (some "Y"))).1.rooms R' =
        exS2.rooms R') :=
  repeat_join_same_room exS2 0 (jmJoin (some "r") (some "Y"))
    ⟨some "Y", some "r"⟩ [0, 1] (by decide) rfl rfl (by decide) (by decide)
    (fun m hm => by
      rcases List.mem_cons.mp hm with rfl | hm2
      · exact ⟨⟨some "Y", some "r"⟩, by decide⟩
      · rcases List.mem_cons.mp hm2 with rfl | hm3
        · exact ⟨⟨some "X", some "r"⟩, by decide⟩
        · simp at hm3)
